import Mathlib

/-!
Shallow embedding of the `whynot` grammar engine.

The embedding follows the Python source:
  * `whynot/refs.py`    — reference scanning (`re.findall`), `unique`,
    `ReferenceCollection.format`, `Reference.__str__`, `ReferenceFormat.__str__`;
  * `whynot/weight.py`  — `WeightedItem`, `WeightedCollection.__len__`,
    `WeightedCollection.__iter__`, `RandomString.__str__`;
  * `whynot/config.py`  — line grammar (`COMMENT_LINE ^ SECTION_LINE ^ VALUE_LINE`),
    `Config.__missing__`, `Config.from_string` with its `check_section` helper and
    the post-parse reference check;
  * `whynot/__init__.py` — `Why.__call__` and `DEFAULT_SOURCE`.

The ambient random generator (`random.choice`) is modelled by an explicit
oracle stream of naturals: each draw consumes the head `r` of the stream and
picks index `r % length` of the weight-expanded pool, which covers every
outcome the uniform draw can produce.  Python exceptions are modelled by
explicit error values; because rendering can recurse through references
without bound, the renderer takes a fuel argument and returns `none` when the
fuel is exhausted (a model artefact, not a behaviour of the code).
-/

namespace Whynot

/-- Characters matched by `RE_SECTION_NAME = [-_a-zA-Z0-9]+` (config.py),
also used as the reference-name pattern handed to
`ReferenceCollection.format` by `Config.from_string`. -/
def isNameChar (c : Char) : Bool :=
  c = '-' || c = '_' || (c ≥ 'a' && c ≤ 'z') || (c ≥ 'A' && c ≤ 'Z') ||
    (c ≥ '0' && c ≤ '9')

/-- Whitespace skipped by pyparsing inside a line and stripped by
`line.strip()` when classifying blank lines (a line never contains a
newline, since the text was already split on them). -/
def isWs (c : Char) : Bool := c = ' ' || c = '\t'

/-- `re.findall(r'<(' + pattern + r')>', raw_text)` for the section-name
pattern: scan left to right; at each `<`, a match succeeds exactly when a
nonempty run of name characters is followed by `>` (the character class
cannot match `>`, so regex backtracking cannot rescue a failed attempt).
Rescanning the matched run cannot start a new match (it contains no `<`),
so the scan may simply continue one character after each `<`. -/
def findRefs : List Char → List String
  | [] => []
  | c :: rest =>
    if c = '<' then
      match rest.dropWhile isNameChar with
      | '>' :: _ =>
        if rest.takeWhile isNameChar = [] then findRefs rest
        else String.mk (rest.takeWhile isNameChar) :: findRefs rest
      | _ => findRefs rest
    else findRefs rest

/-- `unique` from refs.py: strip duplicates from an ordered sequence,
keeping first occurrences.  `seen` is the accumulated `seen` set. -/
def uniqueAux : List String → List String → List String
  | [], _ => []
  | x :: xs, seen =>
    if x ∈ seen then uniqueAux xs seen else x :: uniqueAux xs (x :: seen)

/-- `unique(seq)` from refs.py. -/
def unique (l : List String) : List String := uniqueAux l []

/-- The three shapes a stored value can take after
`ReferenceCollection.format` (refs.py): a plain string, a bare `Reference`
(identified by its key, since all references share the grammar as source),
or a `ReferenceFormat` (format string plus the references substituted into
it, identified by their keys in order). -/
inductive TemplateValue where
  | text (s : String)
  | ref (name : String)
  | fmt (fstring : String) (refs : List String)
deriving DecidableEq, Repr

/-- The replacement text `"{<idx>!s}"` built by
`ReferenceCollection.format` for the `idx`-th distinct reference. -/
def placeholder (i : Nat) : String :=
  "\x7b" ++ toString i ++ "!s\x7d"

/-- The literal marker `"<name>"` for a reference name. -/
def marker (n : String) : String := "<" ++ n ++ ">"

/-- Python's `str.replace`: scan left to right, replacing each
non-overlapping occurrence of the (nonempty) pattern and skipping past
it.  Fuel-indexed so that the recursion is structural; fuel equal to the
scanned list's length always suffices, since every step consumes at
least one character for a nonempty pattern. -/
def replaceAllF : Nat → List Char → List Char → List Char → List Char
  | 0, s, _, _ => s
  | fuel + 1, s, pat, rep =>
    match s with
    | [] => []
    | c :: rest =>
      if pat.isPrefixOf (c :: rest) then
        rep ++ replaceAllF fuel ((c :: rest).drop pat.length) pat rep
      else c :: replaceAllF fuel rest pat rep

/-- `s.replace(pat, rep)` on strings. -/
def replaceAllS (s pat rep : String) : String :=
  String.mk (replaceAllF s.data.length s.data pat.data rep.data)

/-- The successive `str.replace` calls of `ReferenceCollection.format`:
turn every occurrence of `<name>` into `{idx!s}` for each distinct name. -/
def buildFormatString (raw : String) (names : List String) : String :=
  (names.enum).foldl (fun acc p => replaceAllS acc (marker p.2) (placeholder p.1)) raw

/-- One element of a parsed format string: a literal character or a
positional replacement field. -/
inductive FmtPart where
  | lit (c : Char)
  | field (i : Nat)
deriving DecidableEq, Repr

/-- Digit-run value, e.g. for the weight token of `Word(nums)` and for
field indices inside format strings. -/
def natOfDigits (ds : List Char) : Nat :=
  ds.foldl (fun n c => n * 10 + (c.toNat - 48)) 0

/-- Fuel-indexed scanner for the fragment of Python's `str.format` syntax
that the code can feed it: literal characters, `\x7b\x7b` / `\x7d\x7d`
escapes, and positional fields `\x7bi\x7d` or `\x7bi!s\x7d`.  Anything
else (a stray brace, a named or auto-numbered field) makes
`format` raise, modelled by `none`.  Fuel `≥ length` always suffices since
every step consumes at least one character. -/
def scanFormatF : Nat → List Char → Option (List FmtPart)
  | _, [] => some []
  | 0, _ :: _ => none
  | fuel + 1, c :: rest =>
    if c = '\x7b' then
      match rest with
      | '\x7b' :: tail =>
        match scanFormatF fuel tail with
        | some ps => some (.lit '\x7b' :: ps)
        | none => none
      | _ =>
        let ds := rest.takeWhile Char.isDigit
        if ds = [] then none
        else
          match rest.dropWhile Char.isDigit with
          | '\x7d' :: tail =>
            match scanFormatF fuel tail with
            | some ps => some (.field (natOfDigits ds) :: ps)
            | none => none
          | '!' :: 's' :: '\x7d' :: tail =>
            match scanFormatF fuel tail with
            | some ps => some (.field (natOfDigits ds) :: ps)
            | none => none
          | _ => none
    else if c = '\x7d' then
      match rest with
      | '\x7d' :: tail =>
        match scanFormatF fuel tail with
        | some ps => some (.lit '\x7d' :: ps)
        | none => none
      | _ => none
    else
      match scanFormatF fuel rest with
      | some ps => some (.lit c :: ps)
      | none => none

/-- Parse a whole format string. -/
def scanFormat (fstring : String) : Option (List FmtPart) :=
  scanFormatF fstring.data.length fstring.data

/-- `ReferenceFormat.__init__` validates the format string by running
`format_string.format(*["test", ] * len(substitutions))`: the string must
parse, and every field index must be in range. -/
def validFormat (fstring : String) (n : Nat) : Bool :=
  match scanFormat fstring with
  | none => false
  | some parts =>
    parts.all (fun p => match p with | .field i => decide (i < n) | .lit _ => true)

/-- `ReferenceCollection.format` (refs.py), together with the list of
reference names it registers in the collection (`self[name]` calls).
`none` models the exception raised by `ReferenceFormat.__init__`'s
validation (possible only when the raw text itself contains braces). -/
def refFormatR (raw : String) : Option (TemplateValue × List String) :=
  match findRefs raw.data with
  | [] => some (.text raw, [])
  | n0 :: _ =>
    if raw = marker n0 then some (.ref n0, [n0])
    else
      if validFormat (buildFormatString raw (unique (findRefs raw.data)))
          (unique (findRefs raw.data)).length then
        some (.fmt (buildFormatString raw (unique (findRefs raw.data)))
          (unique (findRefs raw.data)), unique (findRefs raw.data))
      else none

/-- Just the stored value produced by `ReferenceCollection.format`. -/
def refFormat (raw : String) : Option TemplateValue :=
  (refFormatR raw).map (fun p => p.1)

/-- `WeightedItem` (weight.py): a weight bundled with a value.  Parsed
weights come from `Word(nums)` and are therefore naturals. -/
structure WeightedItem where
  weight : Nat
  value : TemplateValue
deriving DecidableEq, Repr

/-- The `items` list of a `WeightedCollection` / `RandomString`. -/
abbrev Pool := List WeightedItem

/-- `WeightedCollection.__iter__`: yield each item `weight` times, in
insertion order. -/
def expand : Pool → Pool
  | [] => []
  | it :: rest => List.replicate it.weight it ++ expand rest

/-- `WeightedCollection.__len__`: the sum of all item weights. -/
def wlen (items : Pool) : Nat := (items.map (fun i => i.weight)).sum

/-- `Config` is an `OrderedDict` mapping section names to `RandomString`
pools; modelled as an insertion-ordered association list. -/
abbrev Config := List (String × Pool)

/-- Ordered-dict lookup. -/
def lookupC (cfg : Config) (n : String) : Option Pool :=
  match cfg with
  | [] => none
  | (m, p) :: rest => if m = n then some p else lookupC rest n

/-- `config[name].add(value, weight)`: the first `add` on a missing name
auto-vivifies the pool via `Config.__missing__` (inserting it at the end,
in first-item order); later adds append to the existing pool. -/
def addItem : Config → String → WeightedItem → Config
  | [], n, it => [(n, [it])]
  | (m, p) :: rest, n, it =>
    if m = n then (m, p ++ [it]) :: rest else (m, p) :: addItem rest n it

/-- The classified content of one nonblank, well-formed config line. -/
inductive LineData where
  | comment
  | sect (name : String)
  | value (weight : Nat) (text : String)
deriving DecidableEq, Repr

/-- One line under `CONFIG_LINE = COMMENT_LINE ^ SECTION_LINE ^ VALUE_LINE`
(config.py), as dispatched by `parse_config`:
`some none` is a blank line (`line.strip()` empty), `none` is a pyparsing
failure (wrapped into `ConfigException`), `some (some d)` a parsed line.
The three alternatives are discriminated by the first non-whitespace
character (`#`, `[`, digit), so pyparsing's longest-match `Or` reduces to
this dispatch; pyparsing skips whitespace before every token and
`parseString` ignores whatever trails a successful match. -/
def parseLine (line : String) : Option (Option LineData) :=
  let cs := line.data
  if cs.all isWs then some none
  else
    match cs.dropWhile isWs with
    | [] => some none
    | c :: rest =>
      if c = '#' then some (some .comment)
      else if c = '[' then
        let r1 := rest.dropWhile isWs
        let run := r1.takeWhile isNameChar
        if run = [] then none
        else
          match (r1.dropWhile isNameChar).dropWhile isWs with
          | ']' :: _ => some (some (.sect (String.mk run)))
          | _ => none
      else if c.isDigit then
        let ds := (c :: rest).takeWhile Char.isDigit
        match ((c :: rest).dropWhile Char.isDigit).dropWhile isWs with
        | ':' :: r2 =>
          let v := r2.dropWhile isWs
          if v = [] then none
          else some (some (.value (natOfDigits ds) (String.mk v)))
        | _ => none
      else none

/-- The empty string. -/
def emptyS : String := ""

/-- The cause slot of a `ConfigException`. -/
inductive Cause where
  | parseError
  | emptyCollection (name : String)
  | itemOutsideSection
  | badValue
deriving DecidableEq, Repr

/-- Errors `Config.from_string` can raise: a `ConfigException` wrapping a
line-level failure, or the bare `ValueError` of the post-parse reference
check (which carries no line number). -/
inductive BuildErr where
  | lineErr (lineno : Nat) (cause : Cause)
  | refErr (name : String)
deriving DecidableEq, Repr

/-- Result of `Config.from_string`. -/
inductive BResult where
  | ok (cfg : Config)
  | error (e : BuildErr)
deriving DecidableEq, Repr

/-- Parser state threaded through `Config.from_string`: the config built
so far, the names registered in `config.references` (an insertion-ordered
set), and the currently open section, if any. -/
structure PState where
  config : Config
  registry : List String
  current : Option String
deriving DecidableEq, Repr

/-- `ReferenceCollection.__missing__` registration: record each name once,
in first-use order. -/
def register (reg : List String) (ns : List String) : List String :=
  ns.foldl (fun r n => if n ∈ r then r else r ++ [n]) reg

/-- `check_section` from `Config.from_string`: with a section open, its
pool must have `len ≥ 1` (the sum of weights).  `conf[name]` auto-vivifies
an empty pool when no item was ever added, and then always fails the
check, so the mutation never survives into a returned config. -/
def sectionOk (cfg : Config) : Option String → Bool
  | none => true
  | some n => decide (1 ≤ wlen ((lookupC cfg n).getD []))

/-- One iteration of the `Config.from_string` loop. -/
def stepLine (st : PState) (lineno : Nat) (line : String) : Except BuildErr PState :=
  match parseLine line with
  | none => .error (.lineErr lineno .parseError)
  | some none =>
    if sectionOk st.config st.current then .ok { st with current := none }
    else .error (.lineErr lineno (.emptyCollection (st.current.getD emptyS)))
  | some (some .comment) => .ok st
  | some (some (.sect n)) =>
    if sectionOk st.config st.current then .ok { st with current := some n }
    else .error (.lineErr lineno (.emptyCollection (st.current.getD emptyS)))
  | some (some (.value w t)) =>
    match st.current with
    | none => .error (.lineErr lineno .itemOutsideSection)
    | some sec =>
      match refFormatR t with
      | none => .error (.lineErr lineno .badValue)
      | some r =>
        .ok { st with
              config := addItem st.config sec ⟨w, r.1⟩
              registry := register st.registry r.2 }

/-- Run the `from_string` loop over the remaining lines. -/
def runLines (st : PState) (lineno : Nat) : List String → Except BuildErr PState
  | [] => .ok st
  | l :: ls =>
    match stepLine st lineno l with
    | .error e => .error e
    | .ok st1 => runLines st1 (lineno + 1) ls

/-- The post-parse check `for ref in config.references: if ref not in
config`: the first registered name missing from the config, if any. -/
def findMissing (cfg : Config) : List String → Option String
  | [] => none
  | n :: ns => if (lookupC cfg n).isSome then findMissing cfg ns else some n

/-- `text.split(chr(10))`: split into lines at every newline, keeping
empty pieces, as Python's `str.split` with an explicit separator does. -/
def splitLines : List Char → List (List Char)
  | [] => [[]]
  | c :: rest =>
    if c = '\n' then [] :: splitLines rest
    else
      match splitLines rest with
      | l :: ls => (c :: l) :: ls
      | [] => [[c]]

/-- `Config.from_string` (config.py): iterate over the lines with 1-based
numbering, then run the post-parse reference check. -/
def from_string (text : String) : BResult :=
  match runLines ⟨[], [], none⟩ 1 ((splitLines text.data).map String.mk) with
  | .error e => .error e
  | .ok st =>
    match findMissing st.config st.registry with
    | some n => .error (.refErr n)
    | none => .ok st.config

/-- A render-time Python exception: `IndexError` (`random.choice` on an
empty sequence, `reason[0]` on an empty string, or a format field index
out of range) or `KeyError` (a plain-dict key miss — never actually
raised here, because `Config.__missing__` intercepts every miss). -/
inductive RErr where
  | indexError
  | keyError
deriving DecidableEq, Repr

/-- Outcome of one rendering step: a string, or a raised exception. -/
inductive RRes where
  | ok (s : String)
  | err (e : RErr)
deriving DecidableEq, Repr

/-- The oracle stream standing in for the global `random` generator. -/
abbrev RandS := List Nat

/-- Head of the oracle stream (an exhausted stream keeps producing 0:
the real generator never runs out). -/
def rhead (r : RandS) : Nat := r.headD 0

/-- Advance the oracle stream. -/
def rtail (r : RandS) : RandS := r.tail

/-- `random.choice(list(self))` in `RandomString.__str__`: `none` models
the `IndexError` on an empty expanded pool; otherwise the draw picks the
element at oracle-index `rhead rnd % length`, consuming one oracle value
(this covers every index the uniform draw can return). -/
def choiceE (pool : Pool) (rnd : RandS) : Option (WeightedItem × RandS) :=
  match (expand pool).get? (rhead rnd % (expand pool).length) with
  | none => none
  | some it => some (it, rtail rnd)

/-- A pending rendering request: stringify a collection by name
(`Reference.__str__` / `self.data[source]`), stringify a drawn value, or
run the remainder of a `str.format` call with an accumulated output. -/
inductive RReq where
  | name (n : String)
  | tv (t : TemplateValue)
  | parts (ps : List FmtPart) (refs : List String) (acc : String)
deriving DecidableEq, Repr

/-- The recursive rendering engine.  `renderGo fuel cfg req rnd` returns
`none` when the fuel runs out (model artefact for Python's unbounded
recursion), otherwise the outcome together with the config — which
`Config.__missing__` may have mutated — and the remaining oracle stream.
Branches:
  * `.name n` — `str(self._source[n])`: a missing key is auto-vivified as
    an empty `RandomString` appended to the config
    (`Config.__missing__`), then `RandomString.__str__` draws from the
    pool (the drawn value is never callable) and stringifies it;
  * `.tv t` — `str` of a stored value: a plain string is itself, a
    `Reference` re-renders its target, a `ReferenceFormat` runs
    `format_string.format(*substitutions)`;
  * `.parts` — the field-by-field walk of `str.format`: each replacement
    field converts its argument with `str`, so every textual occurrence
    of a reference triggers its own draw; a field index outside the
    substitution list raises `IndexError`. -/
def renderGo : Nat → Config → RReq → RandS → Option (RRes × Config × RandS)
  | 0, _, _, _ => none
  | fuel + 1, cfg, req, rnd =>
    match req with
    | .name n =>
      let pc : Pool × Config :=
        match lookupC cfg n with
        | some p => (p, cfg)
        | none => ([], cfg ++ [(n, [])])
      match choiceE pc.1 rnd with
      | none => some (.err .indexError, pc.2, rnd)
      | some (it, rnd1) => renderGo fuel pc.2 (.tv it.value) rnd1
    | .tv t =>
      match t with
      | .text s => some (.ok s, cfg, rnd)
      | .ref n => renderGo fuel cfg (.name n) rnd
      | .fmt fs refs =>
        match scanFormat fs with
        | none => some (.err .indexError, cfg, rnd)
        | some ps => renderGo fuel cfg (.parts ps refs emptyS) rnd
    | .parts ps refs acc =>
      match ps with
      | [] => some (.ok acc, cfg, rnd)
      | .lit ch :: rest => renderGo fuel cfg (.parts rest refs (acc ++ String.mk [ch])) rnd
      | .field i :: rest =>
        match refs.get? i with
        | none => some (.err .indexError, cfg, rnd)
        | some n =>
          match renderGo fuel cfg (.name n) rnd with
          | none => none
          | some (.err e, cfg1, rnd1) => some (.err e, cfg1, rnd1)
          | some (.ok s, cfg1, rnd1) =>
            renderGo fuel cfg1 (.parts rest refs (acc ++ s)) rnd1

/-- `str(self.data[source])`: render the named collection. -/
def renderName (fuel : Nat) (cfg : Config) (n : String) (rnd : RandS) :
    Option (RRes × Config × RandS) :=
  renderGo fuel cfg (.name n) rnd

/-- `str` of a stored template value. -/
def renderTV (fuel : Nat) (cfg : Config) (t : TemplateValue) (rnd : RandS) :
    Option (RRes × Config × RandS) :=
  renderGo fuel cfg (.tv t) rnd

/-- `DEFAULT_SOURCE` from `whynot/__init__.py`. -/
def DEFAULT_SOURCE : String := "default"

/-- `reason[0].upper() + reason[1:]`: indexing an empty string raises
`IndexError`; otherwise the first character is uppercased and the rest is
kept unchanged. -/
def capitalizeFirst (s : String) : RRes :=
  match s.data with
  | [] => .err .indexError
  | c :: rest => .ok (String.mk (c.toUpper :: rest))

/-- `Why.__call__` (whynot/__init__.py): render the requested collection,
then capitalize the first character of the result. -/
def whyCall (fuel : Nat) (cfg : Config) (source : String) (rnd : RandS) :
    Option (RRes × Config × RandS) :=
  match renderName fuel cfg source rnd with
  | none => none
  | some (.err e, cfg1, rnd1) => some (.err e, cfg1, rnd1)
  | some (.ok s, cfg1, rnd1) => some (capitalizeFirst s, cfg1, rnd1)

/-- Reference names that occur in a stored value (used to state the
validation invariant). -/
def refsOfTV : TemplateValue → List String
  | .text _ => []
  | .ref n => [n]
  | .fmt _ rs => rs

/-- Reference names occurring in a pool. -/
def refsOfPool : Pool → List String
  | [] => []
  | it :: rest => refsOfTV it.value ++ refsOfPool rest

/-- Reference names occurring anywhere in a config's values. -/
def refsOfConfig : Config → List String
  | [] => []
  | (_, p) :: rest => refsOfPool p ++ refsOfConfig rest

/-- The §3 validation invariant, decidably: every reference name used in
some stored value names an existing collection. -/
def validatedB (cfg : Config) : Bool :=
  (refsOfConfig cfg).all (fun n => (lookupC cfg n).isSome)

/-- Invariant of the `from_string` loop: every reference name stored in
some value is registered in `config.references`. -/
def RegInv (st : PState) : Prop :=
  ∀ x ∈ refsOfConfig st.config, x ∈ st.registry

/-- The names a pending rendering request will look up directly. -/
def reqNames : RReq → List String
  | .name n => [n]
  | .tv t => refsOfTV t
  | .parts _ refs _ => refs

/-- A request only mentions names present in the config. -/
def reqOK (cfg : Config) (req : RReq) : Prop :=
  ∀ n ∈ reqNames req, (lookupC cfg n).isSome = true

/-! ### Concrete grammars, sources and strings used in the theorems -/

def sA : String := "a"

def sB : String := "b"

def sX : String := "x"

def sP : String := "p"

def sQ : String := "q"

def sFoo : String := "foo"

def sBar : String := "bar"

def sHello : String := "hello"

def sXCap : String := "X"

def sNope : String := "nope"

def sSpace : String := " "

def sSpaceFoo : String := " foo"

def sPQ : String := "p q"

/-- The fixed prefix `weight:` of a weighted-entry line with weight 1. -/
def wPrefix : String := "1:"

def lineZeroFoo : String := "0: foo"

/-- Forward reference: `a` uses `<b>` before `[b]` is declared. -/
def srcFwd : String := "[a]\n1: <b>\n\n[b]\n1: x\n"

/-- A value references `b`, which is never declared. -/
def srcMissingRef : String := "[a]\n1: <b>\n"

/-- A zero-weight entry next to a positive one. -/
def srcZeroPlus : String := "[a]\n0: foo\n1: bar\n"

/-- A collection whose only entry has weight zero. -/
def srcZeroSolo : String := "[a]\n0: foo\n"

/-- A blank line closes `a` while it has no entries. -/
def srcBlankClose : String := "[a]\n\n"

/-- The header of `b` closes `a` while it has no entries. -/
def srcHeaderClose : String := "[a]\n[b]\n1: x\n"

/-- The text ends with a newline, so `split` yields a final empty line
that closes the still-open, empty `b`. -/
def srcEofNewline : String := "[a]\n1: x\n[b]\n"

/-- A leading blank line with no collection open. -/
def srcLeadBlank : String := "\n[a]\n1: x\n"

/-- The text does not end with a newline: the open, empty `b` is never
closed or checked. -/
def srcEofNoNewline : String := "[a]\n1: x\n[b]"

/-- Two spaces after the colon of a weighted-entry line. -/
def srcTwoSpace : String := "[a]\n1:  foo\n"

/-- A raw value mentioning the same reference twice. -/
def rawXX : String := "<x> <x>"

/-- The format string `ReferenceCollection.format` builds for `rawXX`. -/
def fmtXX : String := "\x7b0!s\x7d \x7b0!s\x7d"

/-- The stored template for `rawXX`. -/
def tvXX : TemplateValue := .fmt fmtXX [sX]

/-- A grammar with one two-entry collection `x`. -/
def cfgX (v1 v2 : String) : Config := [(sX, [⟨1, .text v1⟩, ⟨1, .text v2⟩])]

/-- The outcome of one draw from `cfgX`'s pool at oracle value `k`. -/
def pickV (v1 v2 : String) (k : Nat) : String := if k % 2 = 0 then v1 else v2

def cfgPQ : Config := cfgX sP sQ

/-- The grammar built from `srcFwd`. -/
def cfgFwd : Config := [(sA, [⟨1, .ref sB⟩]), (sB, [⟨1, .text sX⟩])]

/-- A one-collection grammar. -/
def cfgA1 : Config := [(sA, [⟨1, .text sX⟩])]

/-- The grammar built from `srcZeroPlus`, holding a zero-weight entry. -/
def cfgZero : Config := [(sA, [⟨0, .text sFoo⟩, ⟨1, .text sBar⟩])]

/-- A grammar with a `default` collection. -/
def cfgDefault : Config := [(DEFAULT_SOURCE, [⟨1, .text sHello⟩])]

/-- A grammar whose `default` collection holds an empty string. -/
def cfgEmptyVal : Config := [(DEFAULT_SOURCE, [⟨1, .text emptyS⟩])]

/-! ### Helper lemmas -/

theorem mem_uniqueAux (l : List String) :
    ∀ seen x, x ∈ uniqueAux l seen ↔ (x ∈ l ∧ x ∉ seen) := by
  induction l with
  | nil => intro seen x; simp [uniqueAux]
  | cons y ys ih =>
    intro seen x
    by_cases hy : y ∈ seen
    · simp only [uniqueAux, if_pos hy, ih]
      constructor
      · rintro ⟨hx, hs⟩; exact ⟨List.mem_cons_of_mem _ hx, hs⟩
      · rintro ⟨hx, hs⟩
        rcases List.mem_cons.mp hx with rfl | hx
        · exact absurd hy hs
        · exact ⟨hx, hs⟩
    · simp only [uniqueAux, if_neg hy, List.mem_cons, ih]
      constructor
      · rintro (rfl | ⟨hx, hs⟩)
        · exact ⟨Or.inl rfl, hy⟩
        · exact ⟨Or.inr hx, fun hc => hs (Or.inr hc)⟩
      · rintro ⟨rfl | hx, hs⟩
        · exact Or.inl rfl
        · by_cases hxy : x = y
          · exact Or.inl hxy
          · exact Or.inr ⟨hx, by simp [hxy, hs]⟩

theorem nodup_uniqueAux (l : List String) : ∀ seen, (uniqueAux l seen).Nodup := by
  induction l with
  | nil => intro seen; simp [uniqueAux]
  | cons y ys ih =>
    intro seen
    by_cases hy : y ∈ seen
    · rw [uniqueAux, if_pos hy]
      exact ih seen
    · rw [uniqueAux, if_neg hy]
      refine List.nodup_cons.mpr ⟨fun hc => ?_, ih _⟩
      exact ((mem_uniqueAux ys _ y).mp hc).2 (List.mem_cons_self _ _)

theorem mem_unique (l : List String) (x : String) : x ∈ unique l ↔ x ∈ l := by
  simp [unique, mem_uniqueAux]

theorem nodup_unique (l : List String) : (unique l).Nodup := nodup_uniqueAux l []

theorem length_expand (items : Pool) : (expand items).length = wlen items := by
  induction items with
  | nil => simp [expand, wlen]
  | cons it rest ih =>
    simp only [expand, List.length_append, List.length_replicate, ih, wlen,
      List.map_cons, List.sum_cons]

theorem count_expand (items : Pool) (x : WeightedItem) :
    (expand items).count x =
      ((items.filter (fun j => j == x)).map (fun i => i.weight)).sum := by
  induction items with
  | nil => simp [expand]
  | cons it rest ih =>
    simp only [expand, List.count_append, List.count_replicate, ih, List.filter_cons]
    by_cases h : it = x
    · subst h; simp
    · simp [h, beq_eq_false_iff_ne.mpr h]

theorem mem_of_mem_expand {items : Pool} {x : WeightedItem}
    (h : x ∈ expand items) : x ∈ items := by
  induction items with
  | nil => simp [expand] at h
  | cons it rest ih =>
    simp only [expand, List.mem_append] at h
    rcases h with h | h
    · rcases List.eq_of_mem_replicate h with rfl
      exact List.mem_cons_self _ _
    · exact List.mem_cons_of_mem _ (ih h)

theorem choiceE_mem {pool : Pool} {rnd : RandS} {it : WeightedItem} {rnd1 : RandS}
    (h : choiceE pool rnd = some (it, rnd1)) : it ∈ expand pool := by
  unfold choiceE at h
  split at h
  · simp at h
  · rename_i it2 hg
    simp only [Option.some.injEq, Prod.mk.injEq] at h
    rcases h with ⟨rfl, rfl⟩
    exact List.get?_mem hg

theorem mem_refsOfPool {p : Pool} {it : WeightedItem} {y : String}
    (hit : it ∈ p) (hy : y ∈ refsOfTV it.value) : y ∈ refsOfPool p := by
  induction p with
  | nil => simp at hit
  | cons a rest ih =>
    rcases List.mem_cons.mp hit with rfl | hit
    · exact List.mem_append_left _ hy
    · exact List.mem_append_right _ (ih hit)

theorem mem_refsOfConfig_of_lookup {cfg : Config} {n : String} {p : Pool} {y : String}
    (h : lookupC cfg n = some p) (hy : y ∈ refsOfPool p) : y ∈ refsOfConfig cfg := by
  induction cfg with
  | nil => simp [lookupC] at h
  | cons a rest ih =>
    rcases a with ⟨m, q⟩
    by_cases hm : m = n
    · simp only [lookupC, if_pos hm, Option.some.injEq] at h
      subst h
      exact List.mem_append_left _ hy
    · simp only [lookupC, if_neg hm] at h
      exact List.mem_append_right _ (ih h)

theorem mem_register_left {reg : List String} {x : String} (hx : x ∈ reg) :
    ∀ ns, x ∈ register reg ns := by
  intro ns
  induction ns generalizing reg with
  | nil => exact hx
  | cons n rest ih =>
    simp only [register, List.foldl_cons]
    by_cases hn : n ∈ reg
    · simpa only [register, if_pos hn] using ih hx
    · refine ih ?_
      simp only [if_neg hn]
      exact List.mem_append_left _ hx

theorem mem_register_right {ns : List String} {x : String} (hx : x ∈ ns) :
    ∀ reg, x ∈ register reg ns := by
  intro reg
  induction ns generalizing reg with
  | nil => simp at hx
  | cons n rest ih =>
    rcases List.mem_cons.mp hx with rfl | hx
    · simp only [register, List.foldl_cons]
      by_cases hn : x ∈ reg
      · simpa only [register, if_pos hn] using mem_register_left hn rest
      · refine mem_register_left ?_ rest
        simp only [if_neg hn]
        exact List.mem_append_right _ (List.mem_singleton_self x)
    · simp only [register, List.foldl_cons]
      exact ih hx _

theorem findMissing_none {cfg : Config} :
    ∀ {reg : List String}, findMissing cfg reg = none →
      ∀ x ∈ reg, (lookupC cfg x).isSome = true := by
  intro reg
  induction reg with
  | nil => intro _ x hx; simp at hx
  | cons n rest ih =>
    intro h x hx
    by_cases hn : (lookupC cfg n).isSome
    · simp only [findMissing, if_pos hn] at h
      rcases List.mem_cons.mp hx with rfl | hx
      · exact hn
      · exact ih h x hx
    · simp [findMissing, if_neg hn] at h

theorem refsOfPool_append (a b : Pool) :
    refsOfPool (a ++ b) = refsOfPool a ++ refsOfPool b := by
  induction a with
  | nil => simp [refsOfPool]
  | cons it rest ih => simp [refsOfPool, ih]

theorem refsOfConfig_append (a b : Config) :
    refsOfConfig (a ++ b) = refsOfConfig a ++ refsOfConfig b := by
  induction a with
  | nil => simp [refsOfConfig]
  | cons p rest ih =>
    rcases p with ⟨m, q⟩
    simp [refsOfConfig, ih]

theorem mem_refsOfConfig_addItem {cfg : Config} {n : String} {it : WeightedItem}
    {x : String} (h : x ∈ refsOfConfig (addItem cfg n it)) :
    x ∈ refsOfConfig cfg ∨ x ∈ refsOfTV it.value := by
  induction cfg with
  | nil =>
    simp only [addItem, refsOfConfig, refsOfPool, List.append_nil] at h
    exact Or.inr h
  | cons p rest ih =>
    rcases p with ⟨m, q⟩
    by_cases hm : m = n
    · simp only [addItem, if_pos hm, refsOfConfig, refsOfPool_append,
        refsOfPool, List.append_nil] at h
      rcases List.mem_append.mp h with h | h
      · rcases List.mem_append.mp h with h | h
        · exact Or.inl (List.mem_append_left _ h)
        · exact Or.inr h
      · exact Or.inl (List.mem_append_right _ h)
    · simp only [addItem, if_neg hm, refsOfConfig] at h
      rcases List.mem_append.mp h with h | h
      · exact Or.inl (List.mem_append_left _ h)
      · rcases ih h with h | h
        · exact Or.inl (List.mem_append_right _ h)
        · exact Or.inr h

theorem refsOfTV_refFormatR {raw : String} {r : TemplateValue × List String}
    (h : refFormatR raw = some r) :
    ∀ x ∈ refsOfTV r.1, x ∈ r.2 := by
  obtain ⟨tv, touched⟩ := r
  simp only
  unfold refFormatR at h
  split at h
  · simp only [Option.some.injEq, Prod.mk.injEq] at h
    rcases h with ⟨rfl, rfl⟩
    simp [refsOfTV]
  · rename_i n0 rest heq
    split at h
    · simp only [Option.some.injEq, Prod.mk.injEq] at h
      rcases h with ⟨rfl, rfl⟩
      simp [refsOfTV]
    · split at h
      · simp only [Option.some.injEq, Prod.mk.injEq] at h
        rcases h with ⟨rfl, rfl⟩
        intro x hx
        simpa [refsOfTV] using hx
      · simp at h

theorem stepLine_regInv {st : PState} {k : Nat} {l : String} {st1 : PState}
    (h : stepLine st k l = .ok st1) (hinv : RegInv st) : RegInv st1 := by
  unfold stepLine at h
  split at h
  · simp at h
  · split at h
    · simp only [Except.ok.injEq] at h
      subst h
      exact hinv
    · simp at h
  · simp only [Except.ok.injEq] at h
    subst h
    exact hinv
  · split at h
    · simp only [Except.ok.injEq] at h
      subst h
      exact hinv
    · simp at h
  · split at h
    · simp at h
    · rename_i sec hsec
      split at h
      · simp at h
      · rename_i r hfmt
        simp only [Except.ok.injEq] at h
        subst h
        intro x hx
        simp only at hx ⊢
        rcases mem_refsOfConfig_addItem hx with hx | hx
        · exact mem_register_left (hinv x hx) r.2
        · exact mem_register_right (refsOfTV_refFormatR hfmt x hx) _

theorem runLines_regInv {ls : List String} :
    ∀ {st : PState} {k : Nat} {st1 : PState},
      runLines st k ls = .ok st1 → RegInv st → RegInv st1 := by
  induction ls with
  | nil =>
    intro st k st1 h hinv
    simp only [runLines, Except.ok.injEq] at h
    subst h
    exact hinv
  | cons l rest ih =>
    intro st k st1 h hinv
    unfold runLines at h
    split at h
    · simp at h
    · rename_i st2 hstep
      exact ih h (stepLine_regInv hstep hinv)

theorem validated_value_refs {cfg : Config} {n : String} {p : Pool}
    {it : WeightedItem} (hv : validatedB cfg = true)
    (hl : lookupC cfg n = some p) (hit : it ∈ p) :
    ∀ x ∈ refsOfTV it.value, (lookupC cfg x).isSome = true := by
  intro x hx
  have hmem : x ∈ refsOfConfig cfg :=
    mem_refsOfConfig_of_lookup hl (mem_refsOfPool hit hx)
  exact (List.all_eq_true.mp hv) x hmem

theorem renderGo_preserve :
    ∀ (fuel : Nat) (cfg : Config) (req : RReq) (rnd : RandS)
      (res : RRes) (cfg1 : Config) (rnd1 : RandS),
      validatedB cfg = true → reqOK cfg req →
      renderGo fuel cfg req rnd = some (res, cfg1, rnd1) → cfg1 = cfg := by
  intro fuel
  induction fuel with
  | zero => intro cfg req rnd res cfg1 rnd1 _ _ h; simp [renderGo] at h
  | succ fuel ih =>
    intro cfg req rnd res cfg1 rnd1 hv hok h
    match req with
    | .name n =>
      have hn : (lookupC cfg n).isSome = true :=
        hok n (List.mem_singleton_self n)
      rcases hp : lookupC cfg n with _ | p
      · rw [hp] at hn; simp at hn
      · rw [renderGo, hp] at h
        simp only at h
        rcases hc : choiceE p rnd with _ | c
        · rw [hc] at h
          simp only [Option.some.injEq, Prod.mk.injEq] at h
          exact h.2.1.symm
        · rw [hc] at h
          rcases c with ⟨it, rndA⟩
          refine ih cfg (.tv it.value) rndA res cfg1 rnd1 hv ?_ h
          exact validated_value_refs hv hp (mem_of_mem_expand (choiceE_mem hc))
    | .tv t =>
      match t with
      | .text s =>
        rw [renderGo] at h
        simp only [Option.some.injEq, Prod.mk.injEq] at h
        exact h.2.1.symm
      | .ref n =>
        rw [renderGo] at h
        exact ih cfg (.name n) rnd res cfg1 rnd1 hv
          (by intro m hm; rcases List.mem_singleton.mp hm with rfl; exact hok m hm) h
      | .fmt fs refs =>
        rw [renderGo] at h
        rcases hs : scanFormat fs with _ | ps
        · rw [hs] at h
          simp only [Option.some.injEq, Prod.mk.injEq] at h
          exact h.2.1.symm
        · rw [hs] at h
          exact ih cfg (.parts ps refs emptyS) rnd res cfg1 rnd1 hv hok h
    | .parts ps refs acc =>
      match ps with
      | [] =>
        rw [renderGo] at h
        simp only [Option.some.injEq, Prod.mk.injEq] at h
        exact h.2.1.symm
      | .lit ch :: rest =>
        rw [renderGo] at h
        exact ih cfg (.parts rest refs (acc ++ String.mk [ch])) rnd res cfg1 rnd1 hv hok h
      | .field i :: rest =>
        rw [renderGo] at h
        split at h
        · simp only [Option.some.injEq, Prod.mk.injEq] at h
          exact h.2.1.symm
        · rename_i n hg
          have hnok : reqOK cfg (.name n) := by
            intro m hm
            rcases List.mem_singleton.mp hm with rfl
            exact hok m (List.get?_mem hg)
          split at h
          · exact absurd h (by simp)
          · rename_i e cfgA rndA hr
            have hA : cfgA = cfg := ih cfg (.name n) rnd (.err e) cfgA rndA hv hnok hr
            simp only [Option.some.injEq, Prod.mk.injEq] at h
            rw [← h.2.1, hA]
          · rename_i s cfgA rndA hr
            have hA : cfgA = cfg := ih cfg (.name n) rnd (.ok s) cfgA rndA hv hnok hr
            rw [hA] at h
            exact ih cfg (.parts rest refs (acc ++ s)) rndA res cfg1 rnd1 hv hok h

/-! ### Single-step unfolding lemmas for the renderer -/

theorem renderGo_name_missing {fuel : Nat} {cfg : Config} {n : String} {rnd : RandS}
    (h : lookupC cfg n = none) :
    renderGo (fuel + 1) cfg (.name n) rnd =
      some (.err .indexError, cfg ++ [(n, [])], rnd) := by
  simp only [renderGo, h, choiceE, expand]
  simp

theorem renderGo_name_draw {fuel : Nat} {cfg : Config} {n : String} {rnd : RandS}
    {p : Pool} {it : WeightedItem} {rnd1 : RandS}
    (hp : lookupC cfg n = some p) (hc : choiceE p rnd = some (it, rnd1)) :
    renderGo (fuel + 1) cfg (.name n) rnd = renderGo fuel cfg (.tv it.value) rnd1 := by
  simp only [renderGo, hp, hc]

theorem renderGo_text {fuel : Nat} {cfg : Config} {s : String} {rnd : RandS} :
    renderGo (fuel + 1) cfg (.tv (.text s)) rnd = some (.ok s, cfg, rnd) := by
  simp only [renderGo]

theorem renderGo_ref {fuel : Nat} {cfg : Config} {n : String} {rnd : RandS} :
    renderGo (fuel + 1) cfg (.tv (.ref n)) rnd = renderGo fuel cfg (.name n) rnd := by
  simp only [renderGo]

theorem renderGo_fmt {fuel : Nat} {cfg : Config} {fs : String} {refs : List String}
    {rnd : RandS} {ps : List FmtPart} (hs : scanFormat fs = some ps) :
    renderGo (fuel + 1) cfg (.tv (.fmt fs refs)) rnd =
      renderGo fuel cfg (.parts ps refs emptyS) rnd := by
  simp only [renderGo, hs]

theorem renderGo_parts_nil {fuel : Nat} {cfg : Config} {refs : List String}
    {acc : String} {rnd : RandS} :
    renderGo (fuel + 1) cfg (.parts [] refs acc) rnd = some (.ok acc, cfg, rnd) := by
  simp only [renderGo]

theorem renderGo_parts_lit {fuel : Nat} {cfg : Config} {ch : Char}
    {rest : List FmtPart} {refs : List String} {acc : String} {rnd : RandS} :
    renderGo (fuel + 1) cfg (.parts (.lit ch :: rest) refs acc) rnd =
      renderGo fuel cfg (.parts rest refs (acc ++ String.mk [ch])) rnd := by
  simp only [renderGo]

theorem renderGo_field_ok {fuel : Nat} {cfg : Config} {i : Nat} {rest : List FmtPart}
    {refs : List String} {acc : String} {rnd : RandS} {n : String} {s : String}
    {cfg1 : Config} {rnd1 : RandS} (hg : refs.get? i = some n)
    (hr : renderGo fuel cfg (.name n) rnd = some (.ok s, cfg1, rnd1)) :
    renderGo (fuel + 1) cfg (.parts (.field i :: rest) refs acc) rnd =
      renderGo fuel cfg1 (.parts rest refs (acc ++ s)) rnd1 := by
  simp only [renderGo, hg, hr]

/-- Drawing from a two-element pool of weight-one items picks by the
parity of the oracle value. -/
theorem choiceE_pair {a b : WeightedItem} (ha : a.weight = 1) (hb : b.weight = 1)
    (r : Nat) (rs : RandS) :
    choiceE [a, b] (r :: rs) = some (if r % 2 = 0 then a else b, rs) := by
  unfold choiceE
  simp only [expand, ha, hb, List.replicate_one, rhead, rtail]
  rcases Nat.mod_two_eq_zero_or_one r with hr | hr <;>
    simp [hr, List.headD]

/-! ### Reference-marker scanning lemmas -/

theorem mk_data (s : String) : String.mk s.data = s := by
  obtain ⟨l⟩ := s
  rfl

theorem findRefs_no_lt {l : List Char} (h : ∀ c ∈ l, c ≠ '<') : findRefs l = [] := by
  induction l with
  | nil => rfl
  | cons c rest ih =>
    rw [findRefs, if_neg (h c (List.mem_cons_self c rest))]
    exact ih (fun d hd => h d (List.mem_cons_of_mem c hd))

/-- The regex `<([-_a-zA-Z0-9]+)>` finds exactly one match in the bare
marker text of a wellformed, nonempty name. -/
theorem findRefs_marker (n : String) (hne : n.data ≠ [])
    (hchar : ∀ c ∈ n.data, isNameChar c = true) :
    findRefs (marker n).data = [n] := by
  have hdata : (marker n).data = '<' :: (n.data ++ [ '>' ]) := by
    simp [marker]
  have hdrop : (n.data ++ [ '>' ]).dropWhile isNameChar = [ '>' ] := by
    rw [List.dropWhile_append_of_pos hchar,
      List.dropWhile_cons_of_neg (by decide : ¬ isNameChar '>' = true)]
  have htake : (n.data ++ [ '>' ]).takeWhile isNameChar = n.data := by
    rw [List.takeWhile_append_of_pos hchar,
      List.takeWhile_cons_of_neg (by decide : ¬ isNameChar '>' = true), List.append_nil]
  have hrest : findRefs (n.data ++ [ '>' ]) = [] := by
    refine findRefs_no_lt ?_
    intro c hc
    rcases List.mem_append.mp hc with hc | hc
    · intro hce
      have := hchar c hc
      rw [hce] at this
      exact absurd this (by decide)
    · rcases List.mem_singleton.mp hc with rfl
      decide
  rw [hdata, findRefs, if_pos rfl, hdrop]
  simp only [htake, if_neg hne, hrest, mk_data]

/-! ### Claim theorems -/

/-- C1 (amended): rendering a collection name that is not a key of the
grammar does fail at render time, but not with a KeyError-class failure:
`Config.__missing__` intercepts the miss, auto-vivifies the name as an
empty collection appended to the grammar, and `RandomString.__str__`
then raises `IndexError` when `random.choice` draws from the empty
expanded pool. -/
theorem C1_missing_entry_point_raises_IndexError
    (fuel : Nat) (cfg : Config) (name : String) (rnd : RandS)
    (h : lookupC cfg name = none) :
    whyCall (fuel + 1) cfg name rnd =
      some (.err .indexError, cfg ++ [(name, [])], rnd) := by
  rw [whyCall, renderName, renderGo_name_missing h]

/-- C1 witness: the amended theorem applied to a concrete grammar and a
concrete missing name. -/
theorem C1_witness :
    whyCall 3 cfgA1 sNope [1] =
      some (.err .indexError, cfgA1 ++ [(sNope, [])], [1]) :=
  C1_missing_entry_point_raises_IndexError 2 cfgA1 sNope [1] (by decide)

/-- C1 counterexample: at the validated grammar `cfgDefault` and the
missing entry point `nope`, `Why.__call__` fails with `IndexError`, which
is not a KeyError-class failure, refuting the claim as stated. -/
theorem C1_counterexample :
    validatedB cfgDefault = true ∧
    whyCall 3 cfgDefault sNope [0] =
      some (.err .indexError, cfgDefault ++ [(sNope, [])], [0]) ∧
    RErr.indexError ≠ RErr.keyError :=
  ⟨by decide, by decide, by decide⟩

/-- C2 (amended): within one render of the template stored for the raw
value with the same reference mentioned twice, each textual occurrence
triggers its own independent weighted draw — `str.format` converts each
replacement field separately, so the two occurrences consume two oracle
values and show the draw selected by each. -/
theorem C2_each_occurrence_draws_independently
    (fuel : Nat) (v1 v2 : String) (i j : Nat) :
    renderTV (fuel + 9) (cfgX v1 v2) tvXX [i, j] =
      some (.ok (pickV v1 v2 i ++ sSpace ++ pickV v1 v2 j), cfgX v1 v2, []) := by
  have hp : lookupC (cfgX v1 v2) sX = some [⟨1, .text v1⟩, ⟨1, .text v2⟩] := by
    simp [cfgX, lookupC]
  have hname : ∀ (f : Nat) (r : Nat) (rs : RandS),
      renderGo (f + 2) (cfgX v1 v2) (.name sX) (r :: rs) =
        some (.ok (pickV v1 v2 r), cfgX v1 v2, rs) := by
    intro f r rs
    rw [show f + 2 = (f + 1) + 1 from rfl,
      renderGo_name_draw hp (choiceE_pair rfl rfl r rs)]
    rcases Nat.mod_two_eq_zero_or_one r with hr | hr <;>
      simp [hr, pickV, renderGo_text]
  have hfin : emptyS ++ pickV v1 v2 i ++ String.mk [' '] ++ pickV v1 v2 j =
      pickV v1 v2 i ++ sSpace ++ pickV v1 v2 j := by
    obtain ⟨a⟩ := pickV v1 v2 i
    obtain ⟨b⟩ := pickV v1 v2 j
    show String.mk _ = String.mk _
    simp [emptyS, sSpace]
  calc renderTV (fuel + 9) (cfgX v1 v2) tvXX [i, j]
      = renderGo (fuel + 8) (cfgX v1 v2)
          (.parts [.field 0, .lit ' ', .field 0] [sX] emptyS) [i, j] :=
        renderGo_fmt (show scanFormat fmtXX = some [.field 0, .lit ' ', .field 0] from rfl)
    _ = renderGo (fuel + 7) (cfgX v1 v2)
          (.parts [.lit ' ', .field 0] [sX] (emptyS ++ pickV v1 v2 i)) [j] :=
        renderGo_field_ok (show [sX].get? 0 = some sX from rfl) (hname (fuel + 5) i [j])
    _ = renderGo (fuel + 6) (cfgX v1 v2)
          (.parts [.field 0] [sX] (emptyS ++ pickV v1 v2 i ++ String.mk [' '])) [j] :=
        renderGo_parts_lit
    _ = renderGo (fuel + 5) (cfgX v1 v2)
          (.parts [] [sX] (emptyS ++ pickV v1 v2 i ++ String.mk [' '] ++ pickV v1 v2 j)) [] :=
        renderGo_field_ok (show [sX].get? 0 = some sX from rfl) (hname (fuel + 3) j [])
    _ = some (.ok (emptyS ++ pickV v1 v2 i ++ String.mk [' '] ++ pickV v1 v2 j),
          cfgX v1 v2, []) := renderGo_parts_nil
    _ = some (.ok (pickV v1 v2 i ++ sSpace ++ pickV v1 v2 j), cfgX v1 v2, []) := by
        rw [hfin]

/-- C2 counterexample: the template for `<x> <x>` rendered over a pool
with the two values `p` and `q` at oracle stream `[0, 1]` yields `p q`:
the two occurrences of `<x>` show different drawn strings, refuting the
claim that one draw is shared by every occurrence (which would force the
output `p p` or `q q`). -/
theorem C2_counterexample :
    refFormat rawXX = some tvXX ∧
    renderTV 9 cfgPQ tvXX [0, 1] = some (.ok sPQ, cfgPQ, []) ∧
    sPQ ≠ sP ++ sSpace ++ sP ∧ sPQ ≠ sQ ++ sSpace ++ sQ :=
  ⟨by decide, by decide, by decide, by decide⟩

/-- C3 (amended): a weighted-entry line with weight `0` parses
successfully — neither `VALUE_LINE` nor the `WeightedItem.weight` setter
validates the weight (only digits can appear, so negative weights cannot
arise at all).  A collection whose weights sum to zero is rejected when
it is closed, but as an "empty collection" error, because `len` is the
weight sum. -/
theorem C3_zero_weight_parses
    : parseLine lineZeroFoo = some (some (.value 0 sFoo)) ∧
      from_string srcZeroSolo = .error (.lineErr 3 (.emptyCollection sA)) :=
  ⟨by decide, by decide⟩

/-- C3 counterexample: `srcZeroPlus` declares a zero-weight entry next to
a weight-one entry, and the build succeeds, producing a grammar that
contains the zero-weight entry — refuting the claim that such a source
always fails with a FormatError. -/
theorem C3_counterexample :
    from_string srcZeroPlus = .ok cfgZero ∧
    (∃ it ∈ (lookupC cfgZero sA).getD [], it.weight = 0) :=
  ⟨by decide, by decide⟩

/-- C4 (amended): closing an empty collection — by a blank line or by the
next section header — fails the build with a FormatError naming it, and
closing with no collection open is a no-op; but end of input acts as a
trailing blank line only when the source text ends with a newline (the
final `split` fragment); otherwise the loop simply stops and the open
collection is never closed or validated. -/
theorem C4_empty_collection_close :
    from_string srcBlankClose = .error (.lineErr 2 (.emptyCollection sA)) ∧
    from_string srcHeaderClose = .error (.lineErr 2 (.emptyCollection sA)) ∧
    from_string srcEofNewline = .error (.lineErr 4 (.emptyCollection sB)) ∧
    from_string srcLeadBlank = .ok cfgA1 :=
  ⟨by decide, by decide, by decide, by decide⟩

/-- C4 counterexample: for a source text that does not end with a
newline, the empty trailing collection `b` is neither closed nor
validated: the build succeeds (and `b` is not even a key of the result),
refuting the claim that end of input is always treated as a trailing
blank line. -/
theorem C4_counterexample :
    from_string srcEofNoNewline = .ok cfgA1 ∧ lookupC cfgA1 sB = none :=
  ⟨by decide, by decide⟩

/-- C5 (confirmed): every grammar `from_string` builds successfully has
all its referenced names present as collections (so a dangling reference
always fails the build, at build time); a forward reference builds fine;
the concrete dangling reference fails with the grammar-level error. -/
theorem C5_references_validated_at_build :
    (∀ (src : String) (cfg : Config), from_string src = .ok cfg →
      ∀ x ∈ refsOfConfig cfg, (lookupC cfg x).isSome = true) ∧
    from_string srcFwd = .ok cfgFwd ∧
    from_string srcMissingRef = .error (.refErr sB) := by
  refine ⟨?_, by decide, by decide⟩
  intro src cfg h x hx
  unfold from_string at h
  split at h
  · simp at h
  · rename_i st hrun
    split at h
    · simp at h
    · rename_i hmiss
      simp only [BResult.ok.injEq] at h
      subst h
      have hinv : RegInv st := by
        refine runLines_regInv hrun ?_
        intro y hy
        simp [refsOfConfig] at hy
      exact findMissing_none hmiss x (hinv x hx)

/-- C5 witness: the general validation statement applied to the grammar
built from the forward-reference source. -/
theorem C5_witness : (lookupC cfgFwd sB).isSome = true :=
  C5_references_validated_at_build.1 srcFwd cfgFwd (by decide) sB (by decide)

/-- C6 (confirmed): for every weighted pool, the weight-expanded
iteration has length equal to `len` (the sum of the weights), it repeats
each entry exactly weight-many times (stated via occurrence counts, which
also gives the draw its weight-proportional probability under the uniform
index draw), and a draw is exactly an oracle-uniform index into the
expanded pool. -/
theorem C6_weighted_pool_semantics (items : Pool) :
    (expand items).length = wlen items ∧
    (∀ x : WeightedItem, (expand items).count x =
      ((items.filter (fun j => j == x)).map (fun i => i.weight)).sum) ∧
    (∀ rnd : RandS, choiceE items rnd =
      ((expand items).get? (rhead rnd % (expand items).length)).map
        (fun it => (it, rtail rnd))) := by
  refine ⟨length_expand items, count_expand items, ?_⟩
  intro rnd
  unfold choiceE
  rcases hg : (expand items).get? (rhead rnd % (expand items).length) with _ | it <;>
    rfl

/-- C7 (confirmed): `ReferenceCollection.format` stores plain text
verbatim when it has no markers, stores the bare `Reference` when the
text is exactly one marker, and otherwise stores a template whose
reference list holds each distinct referenced name exactly once, with the
format string produced by positional substitution of the markers. -/
theorem C7_template_value_forms (raw : String) :
    (findRefs raw.data = [] → refFormat raw = some (.text raw))
    ∧ (∀ n : String, n ≠ emptyS → (∀ c ∈ n.data, isNameChar c = true) →
        refFormat (marker n) = some (.ref n))
    ∧ (∀ (fs : String) (rs : List String), refFormat raw = some (.fmt fs rs) →
        rs = unique (findRefs raw.data) ∧ rs.Nodup ∧
        (∀ x, x ∈ rs ↔ x ∈ findRefs raw.data) ∧ fs = buildFormatString raw rs) := by
  refine ⟨?_, ?_, ?_⟩
  · intro h
    simp [refFormat, refFormatR, h]
  · intro n hne hchar
    have hne2 : n.data ≠ [] := by
      intro hc
      apply hne
      rw [← mk_data n, hc]
      rfl
    simp only [refFormat, refFormatR, findRefs_marker n hne2 hchar]
    simp
  · intro fs rs h
    rcases hr : refFormatR raw with _ | pr
    · rw [refFormat, hr] at h
      simp at h
    · rw [refFormat, hr] at h
      simp only [Option.map_some', Option.some.injEq] at h
      unfold refFormatR at hr
      split at hr
      · simp only [Option.some.injEq] at hr
        rw [← hr] at h
        simp at h
      · split at hr
        · simp only [Option.some.injEq] at hr
          rw [← hr] at h
          simp at h
        · split at hr
          · simp only [Option.some.injEq] at hr
            rw [← hr] at h
            simp only [TemplateValue.fmt.injEq] at h
            rcases h with ⟨hfs, hrs⟩
            subst hfs
            subst hrs
            exact ⟨rfl, nodup_unique _, fun x => mem_unique _ x, rfl⟩
          · simp at hr

/-- C7 witness: the bare-marker branch applied at the concrete name `x`. -/
theorem C7_witness : refFormat (marker sX) = some (.ref sX) :=
  (C7_template_value_forms emptyS).2.1 sX (by decide) (by decide)

/-- C8 (amended): rendering a validated grammar through an entry-point
name that exists leaves the grammar unchanged — every recursive lookup
hits an existing collection, so `Config.__missing__` never fires and no
pool or entry is touched.  (Rendering a missing name, by contrast, does
mutate the grammar; see the counterexample.) -/
theorem C8_render_existing_name_preserves_grammar
    (fuel : Nat) (cfg : Config) (name : String) (rnd : RandS)
    (res : RRes) (cfg1 : Config) (rnd1 : RandS)
    (hv : validatedB cfg = true) (hn : (lookupC cfg name).isSome = true)
    (h : whyCall fuel cfg name rnd = some (res, cfg1, rnd1)) : cfg1 = cfg := by
  have hok : reqOK cfg (.name name) := by
    intro m hm
    rcases List.mem_singleton.mp hm with rfl
    exact hn
  unfold whyCall renderName at h
  split at h
  · simp at h
  · rename_i e cfgA rndA hr
    simp only [Option.some.injEq, Prod.mk.injEq] at h
    rw [← h.2.1]
    exact renderGo_preserve fuel cfg (.name name) rnd (.err e) cfgA rndA hv hok hr
  · rename_i s cfgA rndA hr
    simp only [Option.some.injEq, Prod.mk.injEq] at h
    rw [← h.2.1]
    exact renderGo_preserve fuel cfg (.name name) rnd (.ok s) cfgA rndA hv hok hr

/-- C8 witness: the amended theorem applied to a concrete render of the
forward-reference grammar, whose recursive walk draws through `a` and
`b`. -/
theorem C8_witness : cfgFwd = cfgFwd :=
  C8_render_existing_name_preserves_grammar 4 cfgFwd sA [0] (.ok sXCap)
    cfgFwd [] (by decide) (by decide) (by decide)

/-- C8 counterexample: rendering the validated grammar `cfgPQ` with the
missing entry-point name `nope` appends an empty collection to the
grammar, refuting the claim that rendering never adds a collection for
any requested name. -/
theorem C8_counterexample :
    validatedB cfgPQ = true ∧
    whyCall 3 cfgPQ sNope [2] =
      some (.err .indexError, cfgPQ ++ [(sNope, [])], [2]) ∧
    cfgPQ ++ [(sNope, [])] ≠ cfgPQ :=
  ⟨by decide, by decide, by decide⟩

/-- C9 (amended): the stored raw value text is the remainder of the line
after the first `:` with ALL leading whitespace (spaces and tabs)
removed — pyparsing skips every whitespace character before the value
regex, not just one optional space; trailing characters are kept
verbatim. -/
theorem C9_value_text_strips_all_leading_whitespace (rest : String)
    (h : rest.data.dropWhile isWs ≠ []) :
    parseLine (wPrefix ++ rest) =
      some (some (.value 1 (String.mk (rest.data.dropWhile isWs)))) := by
  obtain ⟨l⟩ := rest
  show parseLine (String.mk ('1' :: ':' :: l)) = _
  rw [parseLine]
  simp only [List.all_cons, show isWs '1' = false from rfl, Bool.false_and, if_false]
  simp only [show ('1' :: ':' :: l).dropWhile isWs = '1' :: ':' :: l from
    List.dropWhile_cons_of_neg (by decide)]
  simp only [if_neg (by decide : ¬ ('1' : Char) = '#'),
    if_neg (by decide : ¬ ('1' : Char) = '['),
    show ('1' : Char).isDigit = true from rfl, if_true, if_false,
    List.dropWhile_cons_of_pos (show Char.isDigit '1' = true from rfl),
    List.dropWhile_cons_of_neg (by decide : ¬ Char.isDigit ':' = true),
    List.dropWhile_cons_of_neg (by decide : ¬ isWs ':' = true),
    List.takeWhile_cons_of_pos (show Char.isDigit '1' = true from rfl),
    List.takeWhile_cons_of_neg (by decide : ¬ Char.isDigit ':' = true),
    show natOfDigits ['1'] = 1 from rfl]
  rw [if_neg h]
  simp

/-- C9 witness: the amended theorem applied to the remainder consisting
of one space and `foo`. -/
theorem C9_witness :
    parseLine (wPrefix ++ sSpaceFoo) =
      some (some (.value 1 (String.mk (sSpaceFoo.data.dropWhile isWs)))) :=
  C9_value_text_strips_all_leading_whitespace sSpaceFoo (by decide)

/-- C9 counterexample: for the line with two spaces after the colon the
stored value text is `foo`, while the claim (remove at most one space,
preserve the rest verbatim) predicts ` foo` — refuting the claim. -/
theorem C9_counterexample :
    from_string srcTwoSpace = .ok [(sA, [⟨1, .text sFoo⟩])] ∧
    TemplateValue.text sFoo ≠ .text sSpaceFoo :=
  ⟨by decide, by decide⟩

/-- C10 (confirmed): there is a validated grammar whose render yields the
empty string, and on it `Why.__call__` fails with the unguarded
`reason[0]` IndexError instead of returning the empty string. -/
theorem C10_empty_render_raises_IndexError :
    validatedB cfgEmptyVal = true ∧
    renderName 5 cfgEmptyVal DEFAULT_SOURCE [0] =
      some (.ok emptyS, cfgEmptyVal, []) ∧
    whyCall 5 cfgEmptyVal DEFAULT_SOURCE [0] =
      some (.err .indexError, cfgEmptyVal, []) :=
  ⟨by decide, by decide, by decide⟩

end Whynot
